import Mathlib

/-!
Verification development for the all-in-one-clipboard build scripts.

Shallow embedding of the two source files:
* `src/build/countries/scripts/country_json_api_fetch.py`
  (dial-code normalization, country record processing, GResource manifest
  synchronization), and
* `src/gnome-extensions/build-aux/extract-data-strings.py`
  (recursive translatable-string extraction, POT template emission, CLI
  entry-point control flow).

Manifest lines are modelled as `List Char` so that Python's substring,
`lstrip` and f-string operations become plain list operations.  JSON values
are modelled by an inductive `Json` type.  Filesystem and network
collaborators are passed in as explicit parameters (line lists, download
outcomes, directory flags), mirroring how the scripts consume them.
-/

/-- A manifest line, byte-for-byte (including its terminator), as a char list. -/
abbrev Line := List Char

/-- Characters of a string literal; used to write concrete lines. -/
def lchars (s : String) : Line := s.data

/-- Whitespace stripped by Python's `str.strip` / `str.lstrip` (ASCII range;
the scripts only ever meet ASCII whitespace). -/
def isPySpace (c : Char) : Bool :=
  c = ' ' || c = '\t' || c = '\n' || c = '\r' || c = '\x0b' || c = '\x0c'

/-- Python's `s.strip()`: drop leading and trailing whitespace. -/
def pyStrip (s : String) : String :=
  String.mk (((s.data.dropWhile isPySpace).reverse.dropWhile isPySpace).reverse)

/-- Python's `s.upper()` on the ASCII letters the script feeds it. -/
def pyUpper (s : String) : String := String.mk (s.data.map Char.toUpper)

/-- Does `pat` occur at the start of the list? (Python `s.startswith`). -/
def startsWithSeq : List Char → List Char → Bool
  | [], _ => true
  | _ :: _, [] => false
  | p :: ps, c :: cs => if p = c then startsWithSeq ps cs else false

/-- Python's substring test `pat in s`. -/
def hasSubstr (pat : List Char) : List Char → Bool
  | [] => pat.isEmpty
  | c :: cs => startsWithSeq pat (c :: cs) || hasSubstr pat cs

/-- Code-point-wise lexicographic `≤` on char lists: exactly the string order
used by Python's `sorted`. -/
def lexLe : List Char → List Char → Bool
  | [], _ => true
  | _ :: _, [] => false
  | a :: as, b :: bs =>
    if a.toNat < b.toNat then true
    else if b.toNat < a.toNat then false
    else lexLe as bs

/-- Insert an element into a list in front of the first element it is `le` to. -/
def insertLe {α : Type} (le : α → α → Bool) (a : α) : List α → List α
  | [] => [a]
  | b :: bs => if le a b then a :: b :: bs else b :: insertLe le a bs

/-- Insertion sort; for a total antisymmetric order this computes exactly the
list Python's `sorted` returns. -/
def sortByLe {α : Type} (le : α → α → Bool) : List α → List α
  | [] => []
  | a :: as => insertLe le a (sortByLe le as)

theorem startsWithSeq_self_append (p rest : List Char) :
    startsWithSeq p (p ++ rest) = true := by
  induction p with
  | nil => rfl
  | cons c cs ih => simp [startsWithSeq, ih]

theorem hasSubstr_append_right (pat a b : List Char) (h : hasSubstr pat b = true) :
    hasSubstr pat (a ++ b) = true := by
  induction a with
  | nil => simpa using h
  | cons c cs ih => simp [hasSubstr, ih]

theorem hasSubstr_self_append (pat rest : List Char) :
    hasSubstr pat (pat ++ rest) = true := by
  cases pat with
  | nil =>
    cases rest with
    | nil => rfl
    | cons c cs => simp [hasSubstr, startsWithSeq]
  | cons p ps =>
    simp only [hasSubstr, List.cons_append, Bool.or_eq_true]
    exact Or.inl (startsWithSeq_self_append (p :: ps) rest)

theorem lexLe_cons_iff (x y : Char) (xs ys : List Char) :
    lexLe (x :: xs) (y :: ys) = true ↔
      (x.toNat < y.toNat ∨ (x.toNat = y.toNat ∧ lexLe xs ys = true)) := by
  simp only [lexLe]
  by_cases h1 : x.toNat < y.toNat
  · simp [h1]
  · by_cases h2 : y.toNat < x.toNat
    · simp [h1, h2]; omega
    · have h3 : x.toNat = y.toNat := by omega
      simp [h1, h2, h3]

theorem lexLe_total (a : List Char) : ∀ b, lexLe a b = true ∨ lexLe b a = true := by
  induction a with
  | nil => intro b; left; rfl
  | cons x xs ih =>
    intro b
    cases b with
    | nil => right; rfl
    | cons y ys =>
      rcases Nat.lt_trichotomy x.toNat y.toNat with h | h | h
      · left; exact (lexLe_cons_iff x y xs ys).mpr (Or.inl h)
      · rcases ih ys with h2 | h2
        · left; exact (lexLe_cons_iff x y xs ys).mpr (Or.inr ⟨h, h2⟩)
        · right; exact (lexLe_cons_iff y x ys xs).mpr (Or.inr ⟨h.symm, h2⟩)
      · right; exact (lexLe_cons_iff y x ys xs).mpr (Or.inl h)

theorem lexLe_trans (a : List Char) :
    ∀ b c, lexLe a b = true → lexLe b c = true → lexLe a c = true := by
  induction a with
  | nil => intro b c _ _; rfl
  | cons x xs ih =>
    intro b c h1 h2
    cases b with
    | nil => simp [lexLe] at h1
    | cons y ys =>
      cases c with
      | nil => simp [lexLe] at h2
      | cons z zs =>
        rcases (lexLe_cons_iff x y xs ys).mp h1 with hxy | ⟨hxy, hxs⟩ <;>
          rcases (lexLe_cons_iff y z ys zs).mp h2 with hyz | ⟨hyz, hys⟩
        · exact (lexLe_cons_iff x z xs zs).mpr (Or.inl (by omega))
        · exact (lexLe_cons_iff x z xs zs).mpr (Or.inl (by omega))
        · exact (lexLe_cons_iff x z xs zs).mpr (Or.inl (by omega))
        · exact (lexLe_cons_iff x z xs zs).mpr
            (Or.inr ⟨by omega, ih ys zs hxs hys⟩)

theorem insertLe_perm {α : Type} (le : α → α → Bool) (a : α) (l : List α) :
    (insertLe le a l).Perm (a :: l) := by
  induction l with
  | nil => exact List.Perm.refl _
  | cons b bs ih =>
    simp only [insertLe]
    split
    · exact List.Perm.refl _
    · exact (ih.cons b).trans (List.Perm.swap a b bs)

theorem sortByLe_perm {α : Type} (le : α → α → Bool) (l : List α) :
    (sortByLe le l).Perm l := by
  induction l with
  | nil => exact List.Perm.refl _
  | cons a as ih => exact (insertLe_perm le a (sortByLe le as)).trans (ih.cons a)

theorem mem_insertLe {α : Type} (le : α → α → Bool) (a x : α) (l : List α) :
    x ∈ insertLe le a l ↔ x = a ∨ x ∈ l := by
  have h := (insertLe_perm le a l).mem_iff (a := x)
  simpa using h

theorem insertLe_pairwise {α : Type} (le : α → α → Bool)
    (htrans : ∀ a b c, le a b = true → le b c = true → le a c = true)
    (htot : ∀ a b, le a b = true ∨ le b a = true)
    (a : α) (l : List α) (h : l.Pairwise (fun x y => le x y = true)) :
    (insertLe le a l).Pairwise (fun x y => le x y = true) := by
  induction l with
  | nil => exact List.pairwise_singleton _ a
  | cons b bs ih =>
    rcases List.pairwise_cons.mp h with ⟨hb, hbs⟩
    simp only [insertLe]
    by_cases hab : le a b = true
    · simp only [hab, if_true]
      refine List.pairwise_cons.mpr ⟨?_, h⟩
      intro x hx
      rcases List.mem_cons.mp hx with rfl | hx
      · exact hab
      · exact htrans a b x hab (hb x hx)
    · simp only [hab, if_false]
      refine List.pairwise_cons.mpr ⟨?_, ih hbs⟩
      intro x hx
      rcases (mem_insertLe le a x bs).mp hx with rfl | hx
      · rcases htot x b with hxb | hbx
        · exact absurd hxb hab
        · exact hbx
      · exact hb x hx

theorem sortByLe_pairwise {α : Type} (le : α → α → Bool)
    (htrans : ∀ a b c, le a b = true → le b c = true → le a c = true)
    (htot : ∀ a b, le a b = true ∨ le b a = true) (l : List α) :
    (sortByLe le l).Pairwise (fun x y => le x y = true) := by
  induction l with
  | nil => simp [sortByLe]
  | cons a as ih => exact insertLe_pairwise le htrans htot a (sortByLe le as) ih

theorem sortByLe_nodup {α : Type} (le : α → α → Bool) (l : List α) (h : l.Nodup) :
    (sortByLe le l).Nodup :=
  (sortByLe_perm le l).nodup_iff.mpr h

/-!
## AssetSynchronizer: `update_gresource_xml` (country_json_api_fetch.py, lines 95-137)

The Python function reads the manifest with `readlines()` (each line keeps its
terminator), drops every line containing both `"assets/data/svg/"` and
`"<file>"`, and, on every line containing `"</gresource>"`, first appends one
`<file>` declaration per filename (sorted) — indented by that line's leading
whitespace plus four spaces — and then the line itself.  All other lines pass
through unchanged.
-/

/-- The fixed relative-path marker `svg_rel_path = "assets/data/svg/"`. -/
def svgRelPath : Line := lchars "assets/data/svg/"

/-- The file-declaration opening token `"<file>"`. -/
def fileOpenTok : Line := lchars "<file>"

/-- The closing-tag marker `"</gresource>"` (matched as a substring). -/
def gresourceCloseTok : Line := lchars "</gresource>"

/-- A stale generated-asset declaration line:
`if svg_rel_path in line and "<file>" in line`. -/
def isStaleLine (line : Line) : Bool :=
  hasSubstr svgRelPath line && hasSubstr fileOpenTok line

/-- A closing line: `if "</gresource>" in line`. -/
def isClosingLine (line : Line) : Bool :=
  hasSubstr gresourceCloseTok line

/-- `closing_tag_indent = line[:len(line) - len(line.lstrip())]`. -/
def closingTagIndent (line : Line) : Line := line.takeWhile isPySpace

/-- `file_indent = closing_tag_indent + "    "`. -/
def fileIndent (line : Line) : Line := closingTagIndent line ++ lchars "    "

/-- One inserted declaration:
`f"{file_indent}<file>{svg_rel_path}{filename}</file>\n"`. -/
def declLine (indent : Line) (filename : Line) : Line :=
  indent ++ fileOpenTok ++ svgRelPath ++ filename ++ lchars "</file>\n"

/-- `sorted(svg_files)` (Python string sort = code-point lexicographic). -/
def sortFiles (files : List Line) : List Line := sortByLe lexLe files

/-- The block of declarations inserted before one closing line. -/
def newDeclLines (svgFiles : List Line) (closingLine : Line) : List Line :=
  (sortFiles svgFiles).map (fun filename => declLine (fileIndent closingLine) filename)

/-- The line-rewriting loop of `update_gresource_xml`. -/
def updateGresourceLines (svgFiles : List Line) : List Line → List Line
  | [] => []
  | line :: rest =>
    if isStaleLine line then updateGresourceLines svgFiles rest
    else if isClosingLine line then
      newDeclLines svgFiles line ++ line :: updateGresourceLines svgFiles rest
    else line :: updateGresourceLines svgFiles rest

/-- Step 4 of `main` (lines 194-196): the manifest update is only invoked when
`downloaded_svgs` is non-empty (`if downloaded_svgs:`); otherwise the manifest
is left untouched. -/
def runXmlUpdateStep (downloadedSvgs : List Line) (manifestLines : List Line) : List Line :=
  if downloadedSvgs.isEmpty then manifestLines
  else updateGresourceLines downloadedSvgs manifestLines

theorem isStaleLine_declLine (indent filename : Line) :
    isStaleLine (declLine indent filename) = true := by
  unfold isStaleLine declLine
  have h1 : hasSubstr svgRelPath
      (indent ++ (fileOpenTok ++ (svgRelPath ++ (filename ++ lchars "</file>\n")))) = true :=
    hasSubstr_append_right _ indent _
      (hasSubstr_append_right _ fileOpenTok _ (hasSubstr_self_append svgRelPath _))
  have h2 : hasSubstr fileOpenTok
      (indent ++ (fileOpenTok ++ (svgRelPath ++ (filename ++ lchars "</file>\n")))) = true :=
    hasSubstr_append_right _ indent _ (hasSubstr_self_append fileOpenTok _)
  simp only [List.append_assoc]
  rw [h1, h2]
  rfl

theorem updateGresourceLines_append (svgFiles a b : List Line) :
    updateGresourceLines svgFiles (a ++ b) =
      updateGresourceLines svgFiles a ++ updateGresourceLines svgFiles b := by
  induction a with
  | nil => rfl
  | cons l ls ih =>
    simp only [List.cons_append, updateGresourceLines]
    by_cases h1 : isStaleLine l = true
    · simp [h1, ih]
    · by_cases h2 : isClosingLine l = true
      · simp [h1, h2, ih]
      · simp [h1, h2, ih]

theorem updateGresourceLines_all_stale (svgFiles : List Line) (ds : List Line)
    (h : ∀ d ∈ ds, isStaleLine d = true) :
    updateGresourceLines svgFiles ds = [] := by
  induction ds with
  | nil => rfl
  | cons d rest ih =>
    have hd : isStaleLine d = true := h d (List.mem_cons_self d rest)
    simp only [updateGresourceLines, hd, if_true]
    exact ih (fun x hx => h x (List.mem_cons_of_mem d hx))

theorem updateGresourceLines_no_closing (svgFiles : List Line) (xs : List Line)
    (h : ∀ l ∈ xs, isClosingLine l = false) :
    updateGresourceLines svgFiles xs = xs.filter (fun l => !isStaleLine l) := by
  induction xs with
  | nil => rfl
  | cons l ls ih =>
    have hl : isClosingLine l = false := h l (List.mem_cons_self l ls)
    have ihs : updateGresourceLines svgFiles ls = ls.filter (fun x => !isStaleLine x) :=
      ih (fun x hx => h x (List.mem_cons_of_mem l hx))
    by_cases h1 : isStaleLine l = true
    · simp [updateGresourceLines, h1, List.filter_cons, ihs]
    · simp [updateGresourceLines, h1, hl, List.filter_cons, ihs]

theorem filter_not_p_of_filter_p {α : Type} (p : α → Bool) (l : List α) :
    (l.filter (fun x => !p x)).filter p = [] := by
  rw [List.filter_eq_nil_iff]
  intro a ha
  have := (List.mem_filter.mp ha).2
  simp at this
  simp [this]

theorem filter_p_idem {α : Type} (p : α → Bool) (l : List α) :
    (l.filter p).filter p = l.filter p := by
  rw [List.filter_eq_self]
  intro a ha
  exact (List.mem_filter.mp ha).2

theorem declLine_injective (indent : Line) : Function.Injective (declLine indent) := by
  intro a b h
  unfold declLine at h
  exact List.append_cancel_left (List.append_cancel_right h)

/-- C2: manifest synchronization is idempotent — for every manifest line
sequence and every filename set, re-running `update_gresource_xml`'s rewrite
with the same filename set on its own output reproduces that output
byte-identically. -/
theorem C2_sync_idempotent (svgFiles lines : List Line) :
    updateGresourceLines svgFiles (updateGresourceLines svgFiles lines) =
      updateGresourceLines svgFiles lines := by
  induction lines with
  | nil => rfl
  | cons l ls ih =>
    by_cases h1 : isStaleLine l = true
    · simp only [updateGresourceLines, h1, if_true]
      exact ih
    · by_cases h2 : isClosingLine l = true
      · have hstale : ∀ d ∈ newDeclLines svgFiles l, isStaleLine d = true := by
          intro d hd
          rcases List.mem_map.mp hd with ⟨fn, hfn, rfl⟩
          exact isStaleLine_declLine _ _
        simp only [updateGresourceLines, h1, h2, Bool.false_eq_true, if_true, if_false]
        rw [updateGresourceLines_append,
          updateGresourceLines_all_stale svgFiles (newDeclLines svgFiles l) hstale,
          List.nil_append]
        simp only [updateGresourceLines, h1, h2, Bool.false_eq_true, if_true, if_false]
        rw [ih]
      · simp only [updateGresourceLines, h1, h2, Bool.false_eq_true, if_true, if_false]
        rw [ih]

/-- C1 (amended): on a manifest whose lines contain exactly one closing-tag
line `c` (a line with `"</gresource>"` as substring), where `c` is not itself
a generated-asset declaration, synchronizing with a duplicate-free filename
set rewrites the manifest so that: (1) the output is the opaque lines of the
prefix, then one declaration per filename sorted lexicographically — indented
by `c`'s leading whitespace plus four spaces — immediately before `c`, then
the opaque lines of the suffix; (2) the generated-asset declaration lines of
the output are exactly those sorted declarations, without duplicates; and
(3) every opaque line is preserved byte-for-byte in its original order. -/
theorem C1_sync_exact (svgFiles pre post : List Line) (c : Line)
    (hclose : isClosingLine c = true)
    (hcns : isStaleLine c = false)
    (hpre : ∀ l ∈ pre, isClosingLine l = false)
    (hpost : ∀ l ∈ post, isClosingLine l = false)
    (hnd : svgFiles.Nodup) :
    updateGresourceLines svgFiles (pre ++ c :: post) =
        pre.filter (fun l => !isStaleLine l) ++
          (newDeclLines svgFiles c ++ c :: post.filter (fun l => !isStaleLine l))
  ∧ (updateGresourceLines svgFiles (pre ++ c :: post)).filter isStaleLine =
        (sortFiles svgFiles).map (declLine (fileIndent c))
  ∧ (updateGresourceLines svgFiles (pre ++ c :: post)).filter (fun l => !isStaleLine l) =
        (pre ++ c :: post).filter (fun l => !isStaleLine l)
  ∧ (sortFiles svgFiles).Perm svgFiles
  ∧ (sortFiles svgFiles).Pairwise (fun a b => lexLe a b = true)
  ∧ ((sortFiles svgFiles).map (declLine (fileIndent c))).Nodup := by
  have hdeclstale : ∀ d ∈ newDeclLines svgFiles c, isStaleLine d = true := by
    intro d hd
    rcases List.mem_map.mp hd with ⟨fn, hfn, rfl⟩
    exact isStaleLine_declLine _ _
  have hmain : updateGresourceLines svgFiles (pre ++ c :: post) =
      pre.filter (fun l => !isStaleLine l) ++
        (newDeclLines svgFiles c ++ c :: post.filter (fun l => !isStaleLine l)) := by
    rw [updateGresourceLines_append, updateGresourceLines_no_closing svgFiles pre hpre]
    congr 1
    simp only [updateGresourceLines, hcns, hclose, Bool.false_eq_true, if_true, if_false]
    rw [updateGresourceLines_no_closing svgFiles post hpost]
  refine ⟨hmain, ?_, ?_, sortByLe_perm lexLe svgFiles,
    sortByLe_pairwise lexLe lexLe_trans lexLe_total svgFiles,
    List.Nodup.map (declLine_injective (fileIndent c)) (sortByLe_nodup lexLe svgFiles hnd)⟩
  · rw [hmain, List.filter_append, List.filter_append,
      filter_not_p_of_filter_p isStaleLine pre, List.nil_append, List.filter_cons]
    simp only [hcns, Bool.false_eq_true, if_false]
    rw [filter_not_p_of_filter_p isStaleLine post, List.filter_eq_self.mpr hdeclstale]
    simp [newDeclLines]
  · rw [hmain, List.filter_append, List.filter_append,
      filter_p_idem (fun l => !isStaleLine l) pre]
    have hdecl0 : (newDeclLines svgFiles c).filter (fun l => !isStaleLine l) = [] := by
      rw [List.filter_eq_nil_iff]
      intro d hd
      simp [hdeclstale d hd]
    rw [hdecl0, List.nil_append, List.filter_cons]
    simp only [hcns, Bool.not_false, if_true]
    rw [filter_p_idem (fun l => !isStaleLine l) post, List.filter_append, List.filter_cons]
    simp [hcns]

/-- Opaque prefix of the C1 example manifest: a resource section opening line,
one stale generated-asset declaration (`us.svg`) and one unrelated declaration
(`logo.png`). -/
def exPre : List Line :=
  [lchars "<gresource>\n",
   lchars "    <file>assets/data/svg/us.svg</file>\n",
   lchars "    <file>assets/data/icons/logo.png</file>\n"]

/-- The closing line of the C1 example manifest. -/
def exClose : Line := lchars "</gresource>\n"

/-- Witness for C1_sync_exact: on the example manifest, synchronizing with
`{fr.svg, de.svg}` keeps the `logo.png` line unchanged, drops the `us.svg`
line, and inserts `de.svg` then `fr.svg` immediately before the closing line,
each indented by the closing line's indentation plus four spaces. -/
theorem C1_sync_exact_witness :
    updateGresourceLines [lchars "fr.svg", lchars "de.svg"] (exPre ++ exClose :: []) =
      [lchars "<gresource>\n",
       lchars "    <file>assets/data/icons/logo.png</file>\n",
       lchars "    <file>assets/data/svg/de.svg</file>\n",
       lchars "    <file>assets/data/svg/fr.svg</file>\n",
       lchars "</gresource>\n"] := by
  have h := (C1_sync_exact [lchars "fr.svg", lchars "de.svg"] exPre [] exClose
      (by decide) (by decide) (by decide) (by decide) (by decide)).1
  rw [h]
  decide

/-- Counterexample to C1 as stated (quantifying over every manifest line
sequence): on a manifest with two lines containing `"</gresource>"`, the loop
inserts the declarations once before each matching line — two generated-asset
declaration lines for the single input filename `fr.svg`, breaking the exact
filename correspondence (and, on a manifest with no such line, no declaration
is inserted at all). -/
theorem C1_counterexample :
    ((updateGresourceLines [lchars "fr.svg"]
        [lchars "</gresource>\n", lchars "  </gresource>\n"]).filter isStaleLine).length = 2
  ∧ (∀ l ∈ (updateGresourceLines [lchars "fr.svg"]
        [lchars "</gresource>\n", lchars "  </gresource>\n"]).filter isStaleLine,
      hasSubstr (lchars "fr.svg") l = true) := by decide

/-- C10: on a manifest with no line containing `"</gresource>"`, synchronizing
with any non-empty filename set removes every stale declaration line and
inserts nothing — the rewrite is exactly the opaque-line filter, and no
declaration for any provided filename appears. -/
theorem C10_no_closing_tag (svgFiles lines : List Line)
    (hne : svgFiles ≠ [])
    (h : ∀ l ∈ lines, isClosingLine l = false) :
    updateGresourceLines svgFiles lines = lines.filter (fun l => !isStaleLine l) :=
  updateGresourceLines_no_closing svgFiles lines h

/-- Witness for C10_no_closing_tag: a two-line manifest without closing tag
loses its stale declaration and keeps its opaque line; nothing is inserted for
`fr.svg`. -/
theorem C10_no_closing_tag_witness :
    updateGresourceLines [lchars "fr.svg"]
        [lchars "    <file>assets/data/svg/us.svg</file>\n", lchars "<some-other-line/>\n"] =
      [lchars "<some-other-line/>\n"] := by
  have h := C10_no_closing_tag [lchars "fr.svg"]
      [lchars "    <file>assets/data/svg/us.svg</file>\n", lchars "<some-other-line/>\n"]
      (by decide) (by decide)
  rw [h]
  decide

/-- C3 (amended): when the set of successfully materialized asset filenames is
empty, `main` skips manifest synchronization entirely (`if downloaded_svgs:`),
leaving the manifest byte-for-byte unchanged, so stale declarations persist;
the synchronizer itself, if it were applied to the empty set, would remove all
generated-asset declarations and insert none. -/
theorem C3_empty_set_skips_sync (manifestLines : List Line) :
    runXmlUpdateStep [] manifestLines = manifestLines
  ∧ updateGresourceLines [] manifestLines =
      manifestLines.filter (fun l => !isStaleLine l) := by
  constructor
  · rfl
  · induction manifestLines with
    | nil => rfl
    | cons l ls ih =>
      by_cases h1 : isStaleLine l = true
      · simp [updateGresourceLines, h1, List.filter_cons, ih]
      · by_cases h2 : isClosingLine l = true
        · simp [updateGresourceLines, h1, h2, List.filter_cons, ih,
            newDeclLines, sortFiles, sortByLe]
        · simp [updateGresourceLines, h1, h2, List.filter_cons, ih]

/-- Counterexample to C3 as stated: a pipeline run whose materialized filename
set is empty leaves the manifest untouched — the stale `us.svg` declaration is
still present afterwards, so the manifest does not end the run free of
generated-asset declarations. -/
theorem C3_counterexample :
    runXmlUpdateStep [] [lchars "    <file>assets/data/svg/us.svg</file>\n"] =
        [lchars "    <file>assets/data/svg/us.svg</file>\n"]
  ∧ isStaleLine (lchars "    <file>assets/data/svg/us.svg</file>\n") = true := by decide

/-!
## RecordNormalizer: `format_dial_code`, `get_flag_emoji` and the per-country
loop of `main` (country_json_api_fetch.py, lines 73-93 and 159-186)
-/

/-- `format_dial_code(root, suffixes, cca2)`.  An absent `idd.root` reaches the
function as `''` (main passes `idd.get('root', '')`), so empty/absent roots are
both modelled by `""`; a `None` result models the record being dropped. -/
def formatDialCode (root : String) (suffixes : List String) (cca2 : String) : Option String :=
  if root = "" then none
  else if root = "+1" ∧ (cca2 = "US" ∨ cca2 = "CA") then some "+1"
  else if root = "+1" ∧ suffixes ≠ [] then some (root ++ suffixes.headD "")
  else if root = "+7" ∧ (cca2 = "RU" ∨ cca2 = "KZ") then some "+7"
  else some (root ++ suffixes.headD "")

/-- `get_flag_emoji(country_code)`: regional-indicator pair for a 2-letter
alphabetic code via the fixed offset 127397, `None` otherwise. -/
def getFlagEmoji (countryCode : String) : Option String :=
  if countryCode = "" || countryCode.length ≠ 2 then none
  else
    let code := pyUpper countryCode
    if !(code.data.all Char.isAlpha) then none
    else match code.data with
      | [c1, c2] => some (String.mk [Char.ofNat (c1.toNat + 127397), Char.ofNat (c2.toNat + 127397)])
      | _ => none

/-- One upstream country record as consumed by the per-country loop
(`name.common`, `cca2`, `idd.root`, `idd.suffixes`); missing fields arrive as
the loop's defaults. -/
structure UpstreamRecord where
  name : String
  cca2 : String
  iddRoot : String
  iddSuffixes : List String
deriving DecidableEq

/-- One canonical output record (the `item` dict built by `main`). -/
structure CountryRecord where
  name : String
  code : String
  dial_code : String
  emoji : String
  flag_path : String
deriving DecidableEq

/-- The body of the per-country loop in `main` (lines 159-186): compute the
dial code, skip the record when it is falsy (`if not dial_code: continue`,
i.e. `None` or `""`), and otherwise build the item.  The network collaborator
(`download_svg`) is passed in as the optional filename it returned. -/
def processCountry (resNs : String) (r : UpstreamRecord)
    (downloadedFilename : Option String) : Option CountryRecord :=
  match formatDialCode r.iddRoot r.iddSuffixes r.cca2 with
  | none => none
  | some dc =>
    if dc = "" then none
    else some
      { name := r.name
        code := r.cca2
        dial_code := dc
        emoji := (getFlagEmoji r.cca2).getD ""
        flag_path :=
          match downloadedFilename with
          | some fn => "resource://" ++ resNs ++ "/assets/data/svg/" ++ fn
          | none => "" }

/-- The `processed_list` accumulated by the loop, one entry per upstream
record paired with its download outcome. -/
def processedList (resNs : String) (entries : List (UpstreamRecord × Option String)) :
    List CountryRecord :=
  entries.filterMap (fun e => processCountry resNs e.1 e.2)

/-- C5 (amended): the special cases `+1`/US,CA and `+7`/RU,KZ yield exactly
`"+1"` and `"+7"` regardless of suffixes; every other record with a NON-EMPTY
root yields the root concatenated with the first suffix (or the root alone
when the suffix list is empty).  A record with an empty/absent root yields no
dial code at all (it is dropped), rather than the root-plus-suffix value the
unqualified otherwise-clause would predict. -/
theorem C5_dial_code (root cca2 : String) (suffixes : List String) :
    (root = "+1" → (cca2 = "US" ∨ cca2 = "CA") →
      formatDialCode root suffixes cca2 = some "+1")
  ∧ (root = "+7" → (cca2 = "RU" ∨ cca2 = "KZ") →
      formatDialCode root suffixes cca2 = some "+7")
  ∧ (root ≠ "" →
      ¬(root = "+1" ∧ (cca2 = "US" ∨ cca2 = "CA")) →
      ¬(root = "+7" ∧ (cca2 = "RU" ∨ cca2 = "KZ")) →
      formatDialCode root suffixes cca2 = some (root ++ suffixes.headD "")) := by
  refine ⟨?_, ?_, ?_⟩
  · intro hr hc
    subst hr
    simp [formatDialCode, hc]
  · intro hr hc
    subst hr
    have h1 : ¬("+7" = "+1" ∧ (cca2 = "US" ∨ cca2 = "CA")) := by
      intro h; exact absurd h.1 (by decide)
    simp [formatDialCode, h1, hc]
  · intro hr h1 h7
    by_cases hs : suffixes = []
    · subst hs
      simp only [formatDialCode, if_neg hr, if_neg h1, if_neg h7]
      have h1b : ¬(root = "+1" ∧ ([] : List String) ≠ []) := by
        intro h; exact h.2 rfl
      simp [h1b]
    · by_cases hroot1 : root = "+1"
      · subst hroot1
        have hc : ¬(cca2 = "US" ∨ cca2 = "CA") := fun h => h1 ⟨rfl, h⟩
        simp [formatDialCode, hc, hs]
      · simp only [formatDialCode, if_neg hr]
        have h1b : ¬(root = "+1" ∧ (cca2 = "US" ∨ cca2 = "CA")) := fun h => hroot1 h.1
        have h1c : ¬(root = "+1" ∧ suffixes ≠ []) := fun h => hroot1 h.1
        simp [h1b, h1c, h7]

/-- Witness for C5_dial_code: `+1`/US ignores the suffix list `["242"]`;
`+7`/KZ gives `"+7"`; the Bahamas-style territory BS with root `+1` and first
suffix `242` gives `"+1242"`; France with root `+33` and no suffix gives
`"+33"`. -/
theorem C5_dial_code_witness :
    formatDialCode "+1" ["242"] "US" = some "+1"
  ∧ formatDialCode "+7" ["6"] "KZ" = some "+7"
  ∧ formatDialCode "+1" ["242"] "BS" = some "+1242"
  ∧ formatDialCode "+33" [] "FR" = some "+33" :=
  ⟨(C5_dial_code "+1" "US" ["242"]).1 rfl (Or.inl rfl),
   (C5_dial_code "+7" "KZ" ["6"]).2.1 rfl (Or.inr rfl),
   (C5_dial_code "+1" "BS" ["242"]).2.2 (by decide) (by decide) (by decide),
   (C5_dial_code "+33" "FR" []).2.2 (by decide) (by decide) (by decide)⟩

/-- Counterexample to C5 as stated: a record with an empty root falls under
the claim's otherwise-clause (predicting `"" ++ "5" = "5"`), but the code
returns no dial code at all — the record is dropped. -/
theorem C5_counterexample :
    formatDialCode "" ["5"] "AA" = none
  ∧ formatDialCode "" ["5"] "AA" ≠ some ("" ++ (["5"] : List String).headD "") := by decide

/-- C7: every upstream record whose dialing root is empty/absent is dropped
before persistence, and every record that reaches the persisted output list
has a non-empty `dial_code`. -/
theorem C7_no_empty_dial_code :
    (∀ resNs r dl, r.iddRoot = "" → processCountry resNs r dl = none)
  ∧ (∀ resNs entries rec, rec ∈ processedList resNs entries → rec.dial_code ≠ "") := by
  constructor
  · intro resNs r dl hr
    unfold processCountry
    rw [hr]
    simp [formatDialCode]
  · intro resNs entries rec hmem
    rcases List.mem_filterMap.mp hmem with ⟨e, _, heq⟩
    unfold processCountry at heq
    split at heq
    · exact absurd heq (by simp)
    · split at heq
      · exact absurd heq (by simp)
      · rename_i hemp
        have hrec := Option.some.inj heq
        rw [← hrec]
        exact hemp

/-- An upstream record with an empty dialing root. -/
def atlantisRec : UpstreamRecord := ⟨"Atlantis", "AA", "", []⟩

/-- An upstream record with dialing root `+33`. -/
def franceRec : UpstreamRecord := ⟨"France", "FR", "+33", []⟩

/-- The canonical record `main` builds for `franceRec` when no flag was
downloaded. -/
def franceOutRec : CountryRecord :=
  ⟨"France", "FR", "+33", (getFlagEmoji "FR").getD "", ""⟩

/-- Witness for C7_no_empty_dial_code: the empty-root record is dropped, and
the record persisted for France has a non-empty dial code. -/
theorem C7_no_empty_dial_code_witness :
    processCountry "/org/example" atlantisRec none = none
  ∧ franceOutRec.dial_code ≠ "" :=
  ⟨C7_no_empty_dial_code.1 "/org/example" atlantisRec none rfl,
   C7_no_empty_dial_code.2 "/org/example" [(franceRec, none)] franceOutRec (by decide)⟩

/-!
## StringExtractor: `extract_strings_recursive` and `process_json_file`
(extract-data-strings.py, lines 62-121)
-/

/-- A JSON value as produced by `json.load`: nested mappings (insertion
ordered, unique keys), sequences, strings, numbers, booleans and null. -/
inductive Json where
  | str (s : String)
  | num (n : Int)
  | jbool (b : Bool)
  | null
  | arr (elems : List Json)
  | obj (fields : List (String × Json))

/-- The module constant `TRANSLATABLE_KEYS`. -/
def TRANSLATABLE_KEYS : List String := ["name", "description", "keywords"]

/-- The module constant `SKIP_FILES`. -/
def SKIP_FILES : List String := ["countries.json", "emojisModifier.json"]

/-- One element of a translatable key's list value:
`if isinstance(item, str) and item.strip(): string_set.add(item.strip())`. -/
def harvestItem : Json → Option String
  | Json.str v => if pyStrip v ≠ "" then some (pyStrip v) else none
  | _ => none

/-- The harvest of one translatable key's value: a string with non-empty strip
contributes its stripped form; a list contributes its string elements with
non-empty strip; anything else contributes nothing (and is not recursed
into). -/
def harvestValue : Json → List String
  | Json.str v => if pyStrip v ≠ "" then [pyStrip v] else []
  | Json.arr items => items.filterMap harvestItem
  | _ => []

mutual

/-- `extract_strings_recursive(obj, string_set)`, parameterized by the
translatable-key policy (the source fixes it to `TRANSLATABLE_KEYS`); the
returned list holds the strings added to the set, in visit order. -/
def extractStringsRecursive (keys : List String) : Json → List String
  | Json.obj fields => extractFields keys fields
  | Json.arr elems => extractElems keys elems
  | _ => []

/-- The `for key, value in obj.items()` loop: a translatable key is harvested
and not recursed into; any other key's value is recursed into. -/
def extractFields (keys : List String) : List (String × Json) → List String
  | [] => []
  | (k, v) :: rest =>
    (if k ∈ keys then harvestValue v else extractStringsRecursive keys v) ++
      extractFields keys rest

/-- The `for item in obj` loop for sequences: every element is recursed
into. -/
def extractElems (keys : List String) : List Json → List String
  | [] => []
  | v :: rest => extractStringsRecursive keys v ++ extractElems keys rest

end

/-- Modelled from the spec's extraction contract, for comparison with the
code: `v` is reachable as the direct string value of a translatable key, or a
string element of a sequence that is such a key's value, where translatable
keys are never recursed into, other mapping values always are, and sequences
are recursed element-wise. -/
inductive SpecReachable (keys : List String) : Json → String → Prop where
  | direct (fields : List (String × Json)) (k v : String)
      (hk : (k, Json.str v) ∈ fields) (hmem : k ∈ keys) :
      SpecReachable keys (Json.obj fields) v
  | inList (fields : List (String × Json)) (k : String) (items : List Json) (v : String)
      (hk : (k, Json.arr items) ∈ fields) (hmem : k ∈ keys) (hv : Json.str v ∈ items) :
      SpecReachable keys (Json.obj fields) v
  | intoField (fields : List (String × Json)) (k : String) (w : Json) (v : String)
      (hk : (k, w) ∈ fields) (hmem : k ∉ keys) (hrec : SpecReachable keys w v) :
      SpecReachable keys (Json.obj fields) v
  | intoElem (elems : List Json) (w : Json) (v : String)
      (hw : w ∈ elems) (hrec : SpecReachable keys w v) :
      SpecReachable keys (Json.arr elems) v

theorem harvestItem_eq_some_iff (a : Json) (s : String) :
    harvestItem a = some s ↔ ∃ v, a = Json.str v ∧ s = pyStrip v ∧ pyStrip v ≠ "" := by
  cases a with
  | str v =>
    by_cases h : pyStrip v = ""
    · simp [harvestItem, h]
    · simp [harvestItem, h, eq_comm]
      exact fun _ hc => h hc.symm
  | num n => simp [harvestItem]
  | jbool b => simp [harvestItem]
  | null => simp [harvestItem]
  | arr elems => simp [harvestItem]
  | obj fields => simp [harvestItem]

theorem mem_harvestValue_iff (w : Json) (s : String) :
    s ∈ harvestValue w ↔
      ((∃ v, w = Json.str v ∧ s = pyStrip v ∧ pyStrip v ≠ "") ∨
       (∃ items v, w = Json.arr items ∧ Json.str v ∈ items ∧ s = pyStrip v ∧ pyStrip v ≠ "")) := by
  cases w with
  | str v =>
    by_cases h : pyStrip v = ""
    · simp [harvestValue, h]
    · simp [harvestValue, h, eq_comm]
      exact fun _ hc => h hc.symm
  | num n => simp [harvestValue]
  | jbool b => simp [harvestValue]
  | null => simp [harvestValue]
  | arr items =>
    simp only [harvestValue, List.mem_filterMap]
    constructor
    · rintro ⟨a, ha, hsome⟩
      rcases (harvestItem_eq_some_iff a s).mp hsome with ⟨v, rfl, hs, hne⟩
      exact Or.inr ⟨items, v, rfl, ha, hs, hne⟩
    · rintro (⟨v, hcon, _, _⟩ | ⟨items2, v, hcon, hv, hs, hne⟩)
      · exact absurd hcon (by simp)
      · rcases Json.arr.inj hcon with rfl
        exact ⟨Json.str v, hv, (harvestItem_eq_some_iff _ s).mpr ⟨v, rfl, hs, hne⟩⟩
  | obj fields => simp [harvestValue]

theorem extract_spec_aux (keys : List String) :
    ∀ j, ∀ s, (s ∈ extractStringsRecursive keys j ↔
      ∃ v, SpecReachable keys j v ∧ s = pyStrip v ∧ pyStrip v ≠ "") :=
  extractStringsRecursive.induct keys
    (fun j => ∀ s, (s ∈ extractStringsRecursive keys j ↔
      ∃ v, SpecReachable keys j v ∧ s = pyStrip v ∧ pyStrip v ≠ ""))
    (fun elems => ∀ s, (s ∈ extractElems keys elems ↔
      ∃ w, w ∈ elems ∧ ∃ v, SpecReachable keys w v ∧ s = pyStrip v ∧ pyStrip v ≠ ""))
    (fun fields => ∀ s, (s ∈ extractFields keys fields ↔
      ∃ k w, (k, w) ∈ fields ∧
        ((k ∈ keys ∧ s ∈ harvestValue w) ∨
         (k ∉ keys ∧ ∃ v, SpecReachable keys w v ∧ s = pyStrip v ∧ pyStrip v ≠ ""))))
    (by
      intro fields ihf s
      rw [show extractStringsRecursive keys (Json.obj fields) = extractFields keys fields
        from rfl, ihf s]
      constructor
      · rintro ⟨k, w, hkw, ⟨hkmem, hs⟩ | ⟨hknot, v, hr, hsv, hne⟩⟩
        · rcases (mem_harvestValue_iff w s).mp hs with
            ⟨v, rfl, hsv, hne⟩ | ⟨items, v, rfl, hvi, hsv, hne⟩
          · exact ⟨v, SpecReachable.direct fields k v hkw hkmem, hsv, hne⟩
          · exact ⟨v, SpecReachable.inList fields k items v hkw hkmem hvi, hsv, hne⟩
        · exact ⟨v, SpecReachable.intoField fields k w v hkw hknot hr, hsv, hne⟩
      · rintro ⟨v, hr, hsv, hne⟩
        cases hr with
        | direct _ k _ hkw hkmem =>
          exact ⟨k, Json.str v, hkw, Or.inl ⟨hkmem,
            (mem_harvestValue_iff _ s).mpr (Or.inl ⟨v, rfl, hsv, hne⟩)⟩⟩
        | inList _ k items _ hkw hkmem hvi =>
          exact ⟨k, Json.arr items, hkw, Or.inl ⟨hkmem,
            (mem_harvestValue_iff _ s).mpr (Or.inr ⟨items, v, rfl, hvi, hsv, hne⟩)⟩⟩
        | intoField _ k w _ hkw hknot hrec =>
          exact ⟨k, w, hkw, Or.inr ⟨hknot, v, hrec, hsv, hne⟩⟩)
    (by
      intro elems ihe s
      rw [show extractStringsRecursive keys (Json.arr elems) = extractElems keys elems
        from rfl, ihe s]
      constructor
      · rintro ⟨w, hw, v, hr, hsv, hne⟩
        exact ⟨v, SpecReachable.intoElem elems w v hw hr, hsv, hne⟩
      · rintro ⟨v, hr, hsv, hne⟩
        cases hr with
        | intoElem _ w _ hw hrec => exact ⟨w, hw, v, hrec, hsv, hne⟩)
    (by
      intro t hnobj hnarr s
      have hnil : extractStringsRecursive keys t = [] := by
        cases t with
        | str v => rfl
        | num n => rfl
        | jbool b => rfl
        | null => rfl
        | arr elems => exact absurd rfl (hnarr elems)
        | obj fields => exact absurd rfl (hnobj fields)
      rw [hnil]
      simp only [List.not_mem_nil, false_iff]
      rintro ⟨v, hr, _, _⟩
      cases hr with
      | direct fields _ _ _ _ => exact hnobj fields rfl
      | inList fields _ _ _ _ _ _ => exact hnobj fields rfl
      | intoField fields _ _ _ _ _ _ => exact hnobj fields rfl
      | intoElem elems _ _ _ _ => exact hnarr elems rfl)
    (by intro s; simp [extractElems])
    (by
      intro v rest ih1 ihr s
      simp only [extractElems, List.mem_append]
      rw [ih1 s, ihr s]
      constructor
      · rintro (h | ⟨w, hw, hspec⟩)
        · exact ⟨v, List.mem_cons_self v rest, h⟩
        · exact ⟨w, List.mem_cons_of_mem v hw, hspec⟩
      · rintro ⟨w, hw, hspec⟩
        rcases List.mem_cons.mp hw with rfl | hw
        · exact Or.inl hspec
        · exact Or.inr ⟨w, hw, hspec⟩)
    (by intro s; simp [extractFields])
    (by
      intro k v rest ihv ihr s
      simp only [extractFields, List.mem_append]
      by_cases hk : k ∈ keys
      · simp only [if_pos hk]
        rw [ihr s]
        constructor
        · rintro (h | ⟨k2, w2, hm, hc⟩)
          · exact ⟨k, v, List.mem_cons_self _ rest, Or.inl ⟨hk, h⟩⟩
          · exact ⟨k2, w2, List.mem_cons_of_mem _ hm, hc⟩
        · rintro ⟨k2, w2, hm, hc⟩
          rcases List.mem_cons.mp hm with heq | hm2
          · rcases Prod.mk.injEq .. ▸ heq with ⟨rfl, rfl⟩
            rcases hc with ⟨_, hs⟩ | ⟨hknot, _⟩
            · exact Or.inl hs
            · exact absurd hk hknot
          · exact Or.inr ⟨k2, w2, hm2, hc⟩
      · simp only [if_neg hk]
        rw [ihv s, ihr s]
        constructor
        · rintro (h | ⟨k2, w2, hm, hc⟩)
          · exact ⟨k, v, List.mem_cons_self _ rest, Or.inr ⟨hk, h⟩⟩
          · exact ⟨k2, w2, List.mem_cons_of_mem _ hm, hc⟩
        · rintro ⟨k2, w2, hm, hc⟩
          rcases List.mem_cons.mp hm with heq | hm2
          · rcases Prod.mk.injEq .. ▸ heq with ⟨rfl, rfl⟩
            rcases hc with ⟨hkmem, _⟩ | ⟨_, hs⟩
            · exact absurd hkmem hk
            · exact Or.inl hs
          · exact Or.inr ⟨k2, w2, hm2, hc⟩)

/-- The example value `{"name": "Coffee", "keywords": ["drink", "hot"], "id": 42}`. -/
def coffeeJson : Json :=
  Json.obj [("name", Json.str "Coffee"),
            ("keywords", Json.arr [Json.str "drink", Json.str "hot"]),
            ("id", Json.num 42)]

/-- C4: for every JSON value and every translatable-key policy, the extractor
collects exactly the distinct stripped non-empty strings reachable per the
spec's decision table (translatable keys harvested, never recursed into; other
mapping values and all sequence elements recursed into; other scalars
ignored); on the coffee example with keys `{name, keywords}` it yields exactly
`{"Coffee", "drink", "hot"}`. -/
theorem C4_extraction :
    (∀ keys j s, s ∈ extractStringsRecursive keys j ↔
      ∃ v, SpecReachable keys j v ∧ s = pyStrip v ∧ pyStrip v ≠ "")
  ∧ (∀ s, s ∈ extractStringsRecursive ["name", "keywords"] coffeeJson ↔
      (s = "Coffee" ∨ s = "drink" ∨ s = "hot")) := by
  constructor
  · intro keys j s
    exact extract_spec_aux keys j s
  · intro s
    rw [show extractStringsRecursive ["name", "keywords"] coffeeJson =
      ["Coffee", "drink", "hot"] from rfl]
    simp

/-- The top-level shape normalization of `process_json_file` (lines 107-109):
`if isinstance(data, dict) and 'data' in data: data = data['data']`. -/
def normalizeTopLevel (data : Json) : Json :=
  match data with
  | Json.obj fields =>
    match List.lookup "data" fields with
    | some v => v
    | none => Json.obj fields
  | other => other

/-- The extraction performed by `process_json_file` on a parsed value. -/
def processJsonData (keys : List String) (data : Json) : List String :=
  extractStringsRecursive keys (normalizeTopLevel data)

/-- C6: extraction on a root mapping that has a key literally named `data`
with value V produces the same strings as extraction applied to V directly;
a root without such a key (a mapping without it, or any non-mapping root) is
extracted as-is. -/
theorem C6_data_wrapper (keys : List String) :
    (∀ fields v, List.lookup "data" fields = some v →
      processJsonData keys (Json.obj fields) = extractStringsRecursive keys v)
  ∧ (∀ fields, List.lookup "data" fields = none →
      processJsonData keys (Json.obj fields) =
        extractStringsRecursive keys (Json.obj fields))
  ∧ (∀ j, (∀ fields, j ≠ Json.obj fields) →
      processJsonData keys j = extractStringsRecursive keys j) := by
  refine ⟨?_, ?_, ?_⟩
  · intro fields v h
    simp [processJsonData, normalizeTopLevel, h]
  · intro fields h
    simp [processJsonData, normalizeTopLevel, h]
  · intro j h
    cases j with
    | obj fields => exact absurd rfl (h fields)
    | str v => rfl
    | num n => rfl
    | jbool b => rfl
    | null => rfl
    | arr elems => rfl

/-- Witness for C6_data_wrapper: `{"data": [{"name": "X"}]}` is extracted
exactly like the bare list `[{"name": "X"}]`, and both give `["X"]`. -/
theorem C6_data_wrapper_witness :
    processJsonData ["name"] (Json.obj [("data", Json.arr [Json.obj [("name", Json.str "X")]])]) =
        extractStringsRecursive ["name"] (Json.arr [Json.obj [("name", Json.str "X")]])
  ∧ extractStringsRecursive ["name"] (Json.arr [Json.obj [("name", Json.str "X")]]) = ["X"] :=
  ⟨(C6_data_wrapper ["name"]).1 [("data", Json.arr [Json.obj [("name", Json.str "X")]])]
      (Json.arr [Json.obj [("name", Json.str "X")]]) rfl,
   rfl⟩

/-!
## TemplateEmitter: `escape_string` and `generate_pot_file`
(extract-data-strings.py, lines 57-59 and 145-171)
-/

/-- One step of `s.replace('\\', '\\\\')`, character-wise. -/
def escBackslash (c : Char) : List Char := if c = '\\' then ['\\', '\\'] else [c]

/-- One step of `.replace('"', '\\"')`, character-wise. -/
def escQuote (c : Char) : List Char := if c = '"' then ['\\', '"'] else [c]

/-- `escape_string(s)`: both replacements target single characters, so the
two sequential `str.replace` passes are the two character-wise expansions. -/
def escapeString (s : String) : String :=
  String.mk ((s.data.flatMap escBackslash).flatMap escQuote)

/-- `POT_HEADER_TEMPLATE.format(creation_date=...)`: the raw-string template
with the creation date substituted (the template's own `\n` sequences are
literal backslash-n characters). -/
def potHeader (creationDate : String) : String :=
  "# Translation template for All-in-One Clipboard data content.\n" ++
  "# Copyright (C) 2025 NiffirgkcaJ\n" ++
  "# This file is distributed under the same license as the All-in-One Clipboard package.\n" ++
  "#\n" ++
  "#, fuzzy\n" ++
  "msgid \"\"\n" ++
  "msgstr \"\"\n" ++
  "\"Project-Id-Version: all-in-one-clipboard\\n\"\n" ++
  "\"Report-Msgid-Bugs-To: \\n\"\n" ++
  "\"POT-Creation-Date: " ++ creationDate ++ "\\n\"\n" ++
  "\"PO-Revision-Date: YEAR-MO-DA HO:MI+ZONE\\n\"\n" ++
  "\"Last-Translator: FULL NAME <EMAIL@ADDRESS>\\n\"\n" ++
  "\"Language-Team: LANGUAGE <LL@li.org>\\n\"\n" ++
  "\"Language: \\n\"\n" ++
  "\"MIME-Version: 1.0\\n\"\n" ++
  "\"Content-Type: text/plain; charset=UTF-8\\n\"\n" ++
  "\"Content-Transfer-Encoding: 8bit\\n\"\n" ++
  "\n"

/-- Python string comparison, code-point lexicographic. -/
def strLe (a b : String) : Bool := lexLe a.data b.data

/-- `sorted(...)` over strings. -/
def sortStrings (l : List String) : List String := sortByLe strLe l

/-- One message block written by the loop in `generate_pot_file`:
provenance comment, escaped msgid, empty msgstr, blank separator. -/
def potBlock (sourceComment : String) (s : String) : String :=
  "#: " ++ sourceComment ++ "\n" ++
  "msgid \"" ++ escapeString s ++ "\"\n" ++
  "msgstr \"\"\n\n"

/-- `generate_pot_file(output_path, strings, source_files)`: discard the empty
string, sort, emit header then one block per string (every block carries the
full comma-joined contributing file-name list), and return the emitted-string
count.  The first component is the written document, the second the return
value. -/
def generatePotFile (creationDate : String) (strings : List String)
    (sourceFileNames : List String) : String × Nat :=
  (potHeader creationDate ++
     String.join ((sortStrings (strings.filter (fun s => s ≠ ""))).map
       (potBlock (String.intercalate ", " sourceFileNames))),
   (sortStrings (strings.filter (fun s => s ≠ ""))).length)

theorem strLe_trans (a b c : String) (h1 : strLe a b = true) (h2 : strLe b c = true) :
    strLe a c = true :=
  lexLe_trans a.data b.data c.data h1 h2

theorem strLe_total (a b : String) : strLe a b = true ∨ strLe b a = true :=
  lexLe_total a.data b.data

/-- C8: on a duplicate-free set of non-empty strings (the StringSet data
type), the emitted document is the fixed header followed by exactly one
message block per string in lexicographic order, each block carrying the full
comma-joined contributing-file comment, the escaped msgid and an empty
msgstr, and the returned count is the number of distinct strings. -/
theorem C8_pot_output (creationDate : String) (strings sourceFileNames : List String)
    (h0 : "" ∉ strings) (h1 : strings.Nodup) :
    (generatePotFile creationDate strings sourceFileNames).1 =
        potHeader creationDate ++
          String.join ((sortStrings strings).map
            (potBlock (String.intercalate ", " sourceFileNames)))
  ∧ (generatePotFile creationDate strings sourceFileNames).2 = strings.length
  ∧ (sortStrings strings).Perm strings
  ∧ (sortStrings strings).Pairwise (fun a b => strLe a b = true)
  ∧ (sortStrings strings).Nodup := by
  have hkept : strings.filter (fun s => s ≠ "") = strings := by
    rw [List.filter_eq_self]
    intro a ha
    have hne : a ≠ "" := fun hc => h0 (hc ▸ ha)
    simp [hne]
  refine ⟨?_, ?_, ?_, ?_, ?_⟩
  · simp only [generatePotFile, hkept]
  · simp only [generatePotFile, hkept]
    exact (sortByLe_perm strLe strings).length_eq
  · exact sortByLe_perm strLe strings
  · exact sortByLe_pairwise strLe strLe_trans strLe_total strings
  · exact sortByLe_nodup strLe strings h1

/-- Witness for C8_pot_output: for the string set `{"Coffee"}` the document is
the header plus exactly one block with `msgid "Coffee"` and `msgstr ""`, and
the returned count is 1. -/
theorem C8_pot_output_witness :
    (generatePotFile "2025-01-01 00:00+0000" ["Coffee"] ["menu.json"]).1 =
        potHeader "2025-01-01 00:00+0000" ++
          "#: menu.json\nmsgid \"Coffee\"\nmsgstr \"\"\n\n"
  ∧ (generatePotFile "2025-01-01 00:00+0000" ["Coffee"] ["menu.json"]).2 = 1 := by
  have h := C8_pot_output "2025-01-01 00:00+0000" ["Coffee"] ["menu.json"]
    (by decide) (by decide)
  refine ⟨?_, ?_⟩
  · rw [h.1]
    exact congrArg (fun t => potHeader "2025-01-01 00:00+0000" ++ t) (by decide)
  · rw [h.2.1]
    decide

/-!
## CLI entry point: `main` and `discover_json_files`
(extract-data-strings.py, lines 124-142 and 176-221)
-/

/-- `discover_json_files(input_dir)`: the sorted `*.json` glob results with
skip-listed names removed.  The glob result list (top-level `*.json` entries)
is the filesystem collaborator's input. -/
def discoverJsonFiles (globResults : List String) : List String :=
  (sortStrings globResults).filter (fun nm => nm ∉ SKIP_FILES)

/-- How one invocation of `main` terminates. -/
inductive MainOutcome where
  | exitUsage
  | exitMissingDir
  | exitNotDir
  | exitNothingToDo
  | generated (files : List String)
deriving DecidableEq

/-- The control flow of `main`: usage check (`len(sys.argv) != 3`), input-dir
existence check, directory check, then discovery; extraction and template
generation happen only in the `generated` outcome. -/
def extractMain (argc : Nat) (inputDirExists inputDirIsDir : Bool)
    (globResults : List String) : MainOutcome :=
  if argc ≠ 3 then MainOutcome.exitUsage
  else if !inputDirExists then MainOutcome.exitMissingDir
  else if !inputDirIsDir then MainOutcome.exitNotDir
  else if (discoverJsonFiles globResults).isEmpty then MainOutcome.exitNothingToDo
  else MainOutcome.generated (discoverJsonFiles globResults)

/-- The process exit code of each outcome (`sys.exit(1)` for the three usage
failures, `sys.exit(0)` for the nothing-to-do path, implicit 0 on success). -/
def mainExitCode : MainOutcome → Nat
  | MainOutcome.exitUsage => 1
  | MainOutcome.exitMissingDir => 1
  | MainOutcome.exitNotDir => 1
  | MainOutcome.exitNothingToDo => 0
  | MainOutcome.generated _ => 0

/-- Whether any extraction work happened in the outcome. -/
def extractionBegan : MainOutcome → Bool
  | MainOutcome.generated _ => true
  | _ => false

/-- C9: the generator exits with code 1 — before any extraction work — when
the argument count differs from two positionals (`len(sys.argv) != 3`), when
the input directory does not exist, or when the input path is not a
directory; and it exits with code 0 on the explicit nothing-to-do path when
no eligible (non-skipped, top-level `*.json`) file is discovered. -/
theorem C9_cli_exits (argc : Nat) (inputDirExists inputDirIsDir : Bool)
    (globResults : List String) :
    (argc ≠ 3 →
      extractMain argc inputDirExists inputDirIsDir globResults = MainOutcome.exitUsage
      ∧ mainExitCode (extractMain argc inputDirExists inputDirIsDir globResults) = 1
      ∧ extractionBegan (extractMain argc inputDirExists inputDirIsDir globResults) = false)
  ∧ (argc = 3 → inputDirExists = false →
      extractMain argc inputDirExists inputDirIsDir globResults = MainOutcome.exitMissingDir
      ∧ mainExitCode (extractMain argc inputDirExists inputDirIsDir globResults) = 1
      ∧ extractionBegan (extractMain argc inputDirExists inputDirIsDir globResults) = false)
  ∧ (argc = 3 → inputDirExists = true → inputDirIsDir = false →
      extractMain argc inputDirExists inputDirIsDir globResults = MainOutcome.exitNotDir
      ∧ mainExitCode (extractMain argc inputDirExists inputDirIsDir globResults) = 1
      ∧ extractionBegan (extractMain argc inputDirExists inputDirIsDir globResults) = false)
  ∧ (argc = 3 → inputDirExists = true → inputDirIsDir = true →
      discoverJsonFiles globResults = [] →
      extractMain argc inputDirExists inputDirIsDir globResults = MainOutcome.exitNothingToDo
      ∧ mainExitCode (extractMain argc inputDirExists inputDirIsDir globResults) = 0) := by
  refine ⟨?_, ?_, ?_, ?_⟩
  · intro h
    simp [extractMain, h, mainExitCode, extractionBegan]
  · intro h3 hex
    subst h3; subst hex
    simp [extractMain, mainExitCode, extractionBegan]
  · intro h3 hex hdir
    subst h3; subst hex; subst hdir
    simp [extractMain, mainExitCode, extractionBegan]
  · intro h3 hex hdir hdisc
    subst h3; subst hex; subst hdir
    simp [extractMain, hdisc, mainExitCode]

/-- Witness for C9_cli_exits: one concrete run per exit path — a single-argument
invocation exits 1, and a directory whose only JSON entry is the skip-listed
`countries.json` exits 0 on the nothing-to-do path. -/
theorem C9_cli_exits_witness :
    extractMain 2 true true [] = MainOutcome.exitUsage
  ∧ mainExitCode (extractMain 2 true true []) = 1
  ∧ extractMain 3 true true ["countries.json"] = MainOutcome.exitNothingToDo
  ∧ mainExitCode (extractMain 3 true true ["countries.json"]) = 0 := by
  have h1 := (C9_cli_exits 2 true true []).1 (by decide)
  have h2 := (C9_cli_exits 3 true true ["countries.json"]).2.2.2 rfl rfl rfl (by decide)
  exact ⟨h1.1, h1.2.1, h2.1, h2.2⟩

/-- Witness for C4_extraction: `"Coffee"` is among the strings extracted from
the coffee example. -/
theorem C4_extraction_witness :
    "Coffee" ∈ extractStringsRecursive ["name", "keywords"] coffeeJson :=
  (C4_extraction.2 "Coffee").mpr (Or.inl rfl)
